import Mathlib

/-!
Verification of the matrix-generation and bounded-concurrency engine of
`src/prefect/run.py` (vacp2p/dst-argo-workflows).

Python strings are modelled as `List Char` (named `Str` below); machine
behaviour of the relevant Python library functions (`str.split`,
`str.strip`, `str.isdigit`, `int`, `str.lower`, `dict` assignment and
lookup, `base64.b64decode`, `json.loads`) is embedded as executable Lean
functions over `Str`.  Unicode-only corner cases of `str.isdigit` and of
UTF-8 decoding are restricted to ASCII, and JSON numbers are kept as
integers (fraction/exponent parts are consumed but not represented);
these restrictions are noted where they occur.
-/

/-- Python `str` modelled as a list of characters. -/
abbrev Str := List Char

/-- Characters stripped by Python `str.strip()` (ASCII whitespace). -/
def isPySpace (c : Char) : Bool :=
  c = ' ' || c = '\t' || c = '\n' || c = '\r' || c = '\x0b' || c = '\x0c'

/-- Python `s.strip()`: remove leading and trailing whitespace. -/
def pstrip (s : Str) : Str :=
  ((s.dropWhile isPySpace).reverse.dropWhile isPySpace).reverse

/-- Python `s.split(sep)` for a one-character separator.
`psplit sep [] = [[]]`, matching Python `"".split(sep) == [""]`. -/
def psplit (sep : Char) : Str → List Str
  | [] => [[]]
  | c :: cs =>
    match psplit sep cs with
    | [] => [[c]]
    | r :: rs => if c = sep then [] :: r :: rs else (c :: r) :: rs

/-- Python `s.lower()` (ASCII case folding). -/
def plower (s : Str) : Str := s.map Char.toLower

/-- Python `s.startswith(pat)`. -/
def pstartswith (s pat : Str) : Bool := pat.isPrefixOf s

/-- Decimal value of an all-digit string, as computed by Python `int`. -/
def toNatDigits (s : Str) : Nat := s.foldl (fun a c => 10 * a + (c.toNat - 48)) 0

/-- Python `s.isdigit()` (restricted to ASCII digits): nonempty and all digits. -/
def pisdigit (s : Str) : Bool := !s.isEmpty && s.all Char.isDigit

/-- The GitHub-form sentinel for an unanswered field, `run.py` line 58. -/
def noResponse : Str := "_No response_".data

/-- Python `int(s)` on a stripped string: optional sign followed by digits,
`none` when the parse fails (models the `ValueError` branch). -/
def parseIntOpt (s : Str) : Option Int :=
  match pstrip s with
  | '-' :: ds => if pisdigit ds then some (-(toNatDigits ds : Int)) else none
  | '+' :: ds => if pisdigit ds then some ((toNatDigits ds : Int)) else none
  | ds => if pisdigit ds then some ((toNatDigits ds : Int)) else none

/-! ## The section-header form parser, `run.py` lines 45-53 -/

/-- The section-header markup marker `"### "`. -/
def hdrMarker : Str := "### ".data

/-- A line that opens a section: `line.startswith("### ")`, line 49. -/
def isHeader (l : Str) : Bool := pstartswith l hdrMarker

/-- The section title of a header line: `line[4:].strip()`, line 50. -/
def titleOf (l : Str) : Str := pstrip (l.drop 4)

/-- Python `data[k] = v` on a dict modelled as an association list:
replace the value of the first matching key, else append. -/
def dset : List (Str × Str) → Str → Str → List (Str × Str)
  | [], k, v => [(k, v)]
  | (k', v') :: rest, k, v =>
    if k' = k then (k, v) :: rest else (k', v') :: dset rest k v

/-- Python `data[k] += v`: append `v` to the value of the first matching
key (unreachable otherwise in the parser, where the key always exists). -/
def dappend : List (Str × Str) → Str → Str → List (Str × Str)
  | [], k, v => [(k, v)]
  | (k', v') :: rest, k, v =>
    if k' = k then (k', v' ++ v) :: rest else (k', v') :: dappend rest k v

/-- Python `data.get(k)`: value of the first matching key. -/
def dget : List (Str × Str) → Str → Option Str
  | [], _ => none
  | (k', v') :: rest, k => if k' = k then some v' else dget rest k

/-- One iteration of the line loop of `run.py` lines 48-53, acting on the
state `(data, current)`.  A header line opens a section whose accumulated
text is reset to empty; any other line is appended (with `"\n"`) to the
current section when `current` is truthy (`elif current:` — so a `none`
current and an empty-string current both discard the line). -/
def lineStep (st : List (Str × Str) × Option Str) (l : Str) :
    List (Str × Str) × Option Str :=
  if isHeader l then (dset st.1 (titleOf l) [], some (titleOf l))
  else
    match st.2 with
    | some c => if c = [] then st else (dappend st.1 c (l ++ [ '\n' ]), st.2)
    | none => st

/-- The full line loop over an already-split list of lines. -/
def parseLineList (ls : List Str) : List (Str × Str) :=
  (ls.foldl lineStep ([], none)).1

/-- Model of `run.py` lines 45-53: split the body on `'\n'` and run the line loop. -/
def parseBody (body : Str) : List (Str × Str) := parseLineList (psplit '\n' body)

/-! ## Field resolvers, `run.py` lines 56-78 -/

/-- Model of `get_valid_value` (lines 56-60): strip the stored text; an empty or
`"_No response_"` result yields the (unstripped) default. -/
def get_valid_value (data : List (Str × Str)) (key default_ : Str) : Str :=
  let value := pstrip ((dget data key).getD default_)
  if value = [] ∨ value = noResponse then default_ else value

/-- Model of `parse_list` (lines 62-65): substitute the default only when the raw
value is empty or the sentinel, then split on commas and keep the
stripped tokens that are all digits, as integers. -/
def parse_list (val default_ : Str) : List Int :=
  let v := if val = [] ∨ val = noResponse then default_ else val
  ((psplit ',' v).filter (fun t => pisdigit (pstrip t))).map
    (fun t => (toNatDigits (pstrip t) : Int))

/-- Model of `safe_int` (lines 67-73): empty/sentinel or unparsable yields default. -/
def safe_int (val : Str) (default_ : Int) : Int :=
  if val = [] ∨ val = noResponse then default_
  else
    match parseIntOpt val with
    | some n => n
    | none => default_

/-- Model of `safe_bool` (lines 75-78): empty/sentinel yields default, any other
value is compared (lower-cased) against `"yes"`. -/
def safe_bool (val : Str) (default_ : Bool) : Bool :=
  if val = [] ∨ val = noResponse then default_
  else decide (plower val = "yes".data)

/-! ## JSON values and the parts of `json.loads` the task uses -/

/-- JSON values.  Numbers are represented by their integer part (the
fraction/exponent text is consumed but not represented); this suffices
because the pipeline only ever reads the `body` string field and stores
the `number` field opaquely. -/
inductive JVal : Type where
  | null : JVal
  | jbool : Bool → JVal
  | jnum : Int → JVal
  | jstr : Str → JVal
  | jarr : List JVal → JVal
  | jobj : List (Str × JVal) → JVal

/-- JSON whitespace. -/
def jWs (c : Char) : Bool := c = ' ' || c = '\t' || c = '\n' || c = '\r'

/-- Skip JSON whitespace. -/
def skipWs (s : Str) : Str := s.dropWhile jWs

/-- Hexadecimal digit value. -/
def hexVal (c : Char) : Option Nat :=
  if '0' ≤ c ∧ c ≤ '9' then some (c.toNat - 48)
  else if 'a' ≤ c ∧ c ≤ 'f' then some (c.toNat - 87)
  else if 'A' ≤ c ∧ c ≤ 'F' then some (c.toNat - 55)
  else none

/-- Single-character JSON string escapes. -/
def escChar (c : Char) : Option Char :=
  if c = '"' then some '"'
  else if c = '\\' then some '\\'
  else if c = '/' then some '/'
  else if c = 'n' then some '\n'
  else if c = 't' then some '\t'
  else if c = 'r' then some '\r'
  else if c = 'b' then some '\x08'
  else if c = 'f' then some '\x0c'
  else none

/-- Parse the remainder of a JSON string after the opening quote.
Returns the decoded characters and the rest of the input. -/
def jstrTail : Str → Option (Str × Str)
  | [] => none
  | '"' :: rest => some ([], rest)
  | '\\' :: 'u' :: a :: b :: c :: d :: rest =>
    (match hexVal a, hexVal b, hexVal c, hexVal d with
     | some ha, some hb, some hc, some hd =>
       (jstrTail rest).map
         (fun pr => (Char.ofNat (((ha * 16 + hb) * 16 + hc) * 16 + hd) :: pr.1, pr.2))
     | _, _, _, _ => none)
  | '\\' :: e :: rest =>
    (escChar e).bind (fun ch => (jstrTail rest).map (fun pr => (ch :: pr.1, pr.2)))
  | c :: rest => (jstrTail rest).map (fun pr => (c :: pr.1, pr.2))

/-- Leading run of decimal digits and the rest. -/
def jdigits (s : Str) : Str × Str := (s.takeWhile Char.isDigit, s.dropWhile Char.isDigit)

/-- Consume an exponent tail (optional sign, then digits) after `e`/`E`. -/
def jexpDigits (s : Str) : Option Str :=
  let t := match s with
    | '+' :: r => r
    | '-' :: r => r
    | _ => s
  let p := jdigits t
  if p.1 = [] then none else some p.2

/-- Consume a fraction and exponent part after the integer digits of a
JSON number (the value is not retained). -/
def jnumSkipFracExp (s : Str) : Str :=
  let s1 := match s with
    | '.' :: r => (let p := jdigits r; if p.1 = [] then '.' :: r else p.2)
    | _ => s
  match s1 with
  | 'e' :: r => (match jexpDigits r with | some r2 => r2 | none => s1)
  | 'E' :: r => (match jexpDigits r with | some r2 => r2 | none => s1)
  | _ => s1

/-- Parse a JSON number (integer part only is retained). -/
def jnumTail (s : Str) : Option (Int × Str) :=
  match s with
  | '-' :: r =>
    let p := jdigits r
    if p.1 = [] then none else some (-(toNatDigits p.1 : Int), jnumSkipFracExp p.2)
  | _ =>
    let p := jdigits s
    if p.1 = [] then none else some ((toNatDigits p.1 : Int), jnumSkipFracExp p.2)

mutual

/-- Fuel-indexed recursive-descent parser for one JSON value. -/
def jparseVal : Nat → Str → Option (JVal × Str)
  | 0, _ => none
  | Nat.succ f, s =>
    match skipWs s with
    | [] => none
    | c :: rest =>
      if c = '"' then (jstrTail rest).map (fun pr => (JVal.jstr pr.1, pr.2))
      else if c = '[' then
        (match skipWs rest with
         | ']' :: r2 => some (JVal.jarr [], r2)
         | _ => (jarrItems f rest).map (fun pr => (JVal.jarr pr.1, pr.2)))
      else if c = '\x7b' then
        (match skipWs rest with
         | '\x7d' :: r2 => some (JVal.jobj [], r2)
         | _ => (jobjItems f rest).map (fun pr => (JVal.jobj pr.1, pr.2)))
      else if c = 'n' then
        (if pstartswith rest ("ull".data) then some (JVal.null, rest.drop 3) else none)
      else if c = 't' then
        (if pstartswith rest ("rue".data) then some (JVal.jbool true, rest.drop 3) else none)
      else if c = 'f' then
        (if pstartswith rest ("alse".data) then some (JVal.jbool false, rest.drop 4) else none)
      else (jnumTail (c :: rest)).map (fun pr => (JVal.jnum pr.1, pr.2))

/-- Comma-separated JSON array items up to the closing bracket. -/
def jarrItems : Nat → Str → Option (List JVal × Str)
  | 0, _ => none
  | Nat.succ f, s =>
    match jparseVal f s with
    | none => none
    | some pr =>
      match skipWs pr.2 with
      | ',' :: r2 => (jarrItems f r2).map (fun q => (pr.1 :: q.1, q.2))
      | ']' :: r2 => some ([pr.1], r2)
      | _ => none

/-- Comma-separated JSON object members up to the closing brace. -/
def jobjItems : Nat → Str → Option (List (Str × JVal) × Str)
  | 0, _ => none
  | Nat.succ f, s =>
    match skipWs s with
    | '"' :: r =>
      (match jstrTail r with
       | none => none
       | some kpr =>
         match skipWs kpr.2 with
         | ':' :: r2 =>
           (match jparseVal f r2 with
            | none => none
            | some vpr =>
              match skipWs vpr.2 with
              | ',' :: r4 => (jobjItems f r4).map (fun q => ((kpr.1, vpr.1) :: q.1, q.2))
              | '\x7d' :: r4 => some ([(kpr.1, vpr.1)], r4)
              | _ => none)
         | _ => none)
    | _ => none

end

/-- Python `json.loads`: parse one value and require only whitespace after. -/
def jloads (s : Str) : Option JVal :=
  match jparseVal (s.length + 2) s with
  | some pr => if skipWs pr.2 = [] then some pr.1 else none
  | none => none

/-- Last-wins lookup in a JSON object member list (Python dict semantics
for duplicate keys in `json.loads`). -/
def jfindLast : List (Str × JVal) → Str → Option JVal
  | [], _ => none
  | kv :: rest, k =>
    match jfindLast rest k with
    | some r => some r
    | none => if kv.1 = k then some kv.2 else none

/-- Python `issue[k]`: key lookup, `none` both when the value is not an
object (Python `TypeError`) and when the key is missing (`KeyError`) —
both exceptions are caught by the `try` of `run.py` lines 38-43. -/
def jget : JVal → Str → Option JVal
  | JVal.jobj fields, k => jfindLast fields k
  | _, _ => none

/-! ## `base64.b64decode` (enough of it for the error-handling claim) -/

/-- Value of one base64 alphabet character. -/
def b64val (c : Char) : Option Nat :=
  if 'A' ≤ c ∧ c ≤ 'Z' then some (c.toNat - 65)
  else if 'a' ≤ c ∧ c ≤ 'z' then some (c.toNat - 71)
  else if '0' ≤ c ∧ c ≤ '9' then some (c.toNat + 4)
  else if c = '+' then some 62
  else if c = '/' then some 63
  else none

/-- Membership in the base64 alphabet. -/
def isB64 (c : Char) : Bool := (b64val c).isSome

/-- Decode a run of base64 sextet values into bytes; a dangling single
sextet cannot occur here (checked by the caller). -/
def b64group : List Nat → List Nat
  | [a, b] => [a * 4 + b / 16]
  | [a, b, c] => [a * 4 + b / 16, (b % 16) * 16 + c / 4]
  | [a, b, c, d] => [a * 4 + b / 16, (b % 16) * 16 + c / 4, (c % 4) * 64 + d]
  | _ => []

/-- Group sextets four at a time; a trailing group of one is a padding
error (`binascii.Error`), modelled as `none`. -/
def b64chunks : List Nat → Option (List Nat)
  | [] => some []
  | a :: b :: c :: d :: rest => (b64chunks rest).map (fun r => b64group [a, b, c, d] ++ r)
  | [a, b] => some (b64group [a, b])
  | [a, b, c] => some (b64group [a, b, c])
  | [_] => none

/-- Python `base64.b64decode` on a `str`: ASCII-encode (error on
non-ASCII), drop characters outside the alphabet, require the padded
length to be a multiple of four, and decode sextet groups to bytes. -/
def b64decode (s : Str) : Option (List Nat) :=
  if s.all (fun c => c.toNat < 128) then
    let t := s.filter (fun c => isB64 c || c = '=')
    let u := t.takeWhile (fun c => c ≠ '=')
    if t.length % 4 = 0 then b64chunks (u.filterMap b64val) else none
  else none

/-- Python `bytes.decode()` restricted to ASCII payloads: any byte ≥ 128
is treated as a decode failure (multi-byte UTF-8 is not modelled). -/
def bytesToStr (bs : List Nat) : Option Str :=
  if bs.all (fun b => b < 128) then some (bs.map Char.ofNat) else none

/-! ## The run-configuration matrix, `run.py` lines 80-133 -/

/-- The scalar (non-axis) values shared by every configuration of one
matrix, as resolved by `run.py` lines 83-108. -/
structure Scalars : Type where
  issue_number : JVal
  bootstrap_nodes : Int
  docker_image : Str
  pubsub_topic : Str
  publisher_enabled : Bool
  publisher_message_size : Int
  publisher_delay : Int
  publisher_message_count : Int
  artificial_latency : Bool
  latency_ms : Int
  nodes_command : Str
  bootstrap_command : Str
  parallel_limit : Int

/-- One run configuration: the dict appended at `run.py` lines 114-131. -/
structure Config : Type where
  index : Nat
  issue_number : JVal
  nodecount : Int
  duration : Int
  bootstrap_nodes : Int
  docker_image : Str
  pubsub_topic : Str
  publisher_enabled : Bool
  publisher_message_size : Int
  publisher_delay : Int
  publisher_message_count : Int
  artificial_latency : Bool
  latency_ms : Int
  nodes_command : Str
  bootstrap_command : Str
  parallel_limit : Int

/-- The dict literal of `run.py` lines 114-131 for index `i`, node count
`n` and duration `d`. -/
def mkConfig (sc : Scalars) (i : Nat) (n d : Int) : Config :=
  { index := i
    issue_number := sc.issue_number
    nodecount := n
    duration := d
    bootstrap_nodes := sc.bootstrap_nodes
    docker_image := sc.docker_image
    pubsub_topic := sc.pubsub_topic
    publisher_enabled := sc.publisher_enabled
    publisher_message_size := sc.publisher_message_size
    publisher_delay := sc.publisher_delay
    publisher_message_count := sc.publisher_message_count
    artificial_latency := sc.artificial_latency
    latency_ms := sc.latency_ms
    nodes_command := sc.nodes_command
    bootstrap_command := sc.bootstrap_command
    parallel_limit := sc.parallel_limit }

/-- Inner `for d in durations` loop (lines 113-132), threading the
running index; returns the produced configurations and the next index. -/
def innerLoop (sc : Scalars) (n : Int) : List Int → Nat → List Config × Nat
  | [], i => ([], i)
  | d :: ds, i =>
    let rest := innerLoop sc n ds (i + 1)
    (mkConfig sc i n d :: rest.1, rest.2)

/-- Outer `for n in nodes` loop (lines 112-132). -/
def outerLoop (sc : Scalars) (ds : List Int) : List Int → Nat → List Config × Nat
  | [], i => ([], i)
  | n :: ns, i =>
    let row := innerLoop sc n ds i
    let rest := outerLoop sc ds ns row.2
    (row.1 ++ rest.1, rest.2)

/-- The full Cartesian expansion `matrix` of `run.py` lines 110-133. -/
def expandMatrix (sc : Scalars) (ns ds : List Int) : List Config :=
  (outerLoop sc ds ns 0).1

/-- The required pubsub-topic marker of `run.py` line 90. -/
def wakuMarker : Str := "/waku/2/rs".data

/-- The fixed fallback topic of `run.py` line 91. -/
def fallbackTopic : Str := "/waku/2/rs/2/0".data

/-- The resolved raw pubsub topic of `run.py` line 89. -/
def resolvedTopic (body : Str) : Str :=
  get_valid_value (parseBody body) ("PubSub Topic".data) []

/-- The node-count axis: `run.py` line 81. -/
def bodyNodes (body : Str) : List Int :=
  parse_list (get_valid_value (parseBody body) ("Number of nodes".data) ("50".data)) ("0".data)

/-- The duration axis: `run.py` line 82. -/
def bodyDurations (body : Str) : List Int :=
  parse_list (get_valid_value (parseBody body) ("Duration".data) ("5".data)) ("0".data)

/-- The scalar axis values of `run.py` lines 83-108 for one body (each
`let`-bound local of the source is a field here). -/
def bodyScalars (body : Str) (issue_number : JVal) : Scalars :=
  let data := parseBody body
  { issue_number := issue_number
    bootstrap_nodes := safe_int (get_valid_value data ("Bootstrap nodes".data) []) 3
    docker_image := get_valid_value data ("Docker image".data) ("statusteam/nim-waku:latest".data)
    pubsub_topic :=
      (let raw := get_valid_value data ("PubSub Topic".data) []
       if raw = [] ∨ ¬ pstartswith raw wakuMarker then fallbackTopic else raw)
    publisher_enabled := safe_bool (get_valid_value data ("Enable Publisher".data) []) false
    publisher_message_size := safe_int (get_valid_value data ("Publisher Message Size".data) []) 1
    publisher_delay := safe_int (get_valid_value data ("Publisher Delay".data) []) 10
    publisher_message_count := safe_int (get_valid_value data ("Publisher Message Count".data) []) 1000
    artificial_latency := safe_bool (get_valid_value data ("Enable Artificial Latency".data) []) false
    latency_ms := safe_int (get_valid_value data ("Artificial Latency (ms)".data) []) 50
    nodes_command := get_valid_value data ("Nodes Command".data) []
    bootstrap_command := get_valid_value data ("Bootstrap Command".data) []
    parallel_limit :=
      (parse_list (get_valid_value data ("Parallelism".data) ("1".data)) ("0".data)).headD 1 }

/-- Model of `run.py` lines 45-133 after a successful payload decode: parse the
body, resolve every axis, and expand the matrix. -/
def genMatrixFromBody (body : Str) (issue_number : JVal) : List Config :=
  expandMatrix (bodyScalars body issue_number) (bodyNodes body) (bodyDurations body)

/-- The `try` block of `run.py` lines 38-41: base64-decode, UTF-8 decode,
JSON-parse, and extract the `body` and `number` fields.  Any failure is
`none`, which line 43 turns into the empty matrix. -/
def decodeIssue (s : Str) : Option (JVal × JVal) :=
  match b64decode s with
  | none => none
  | some bytes =>
    match bytesToStr bytes with
    | none => none
    | some txt =>
      match jloads txt with
      | none => none
      | some v =>
        match jget v ("body".data), jget v ("number".data) with
        | some b, some n => some (b, n)
        | _, _ => none

/-- Model of `parse_and_generate_matrix` (lines 36-133).  `Except.error` models an
uncaught Python exception: when the decoded `body` field is not a string,
line 45 (`body.split`, outside the `try`) raises `AttributeError`. -/
def parse_and_generate_matrix (s : Str) : Except Unit (List Config) :=
  match decodeIssue s with
  | none => Except.ok []
  | some (JVal.jstr body, num) => Except.ok (genMatrixFromBody body num)
  | some (_, _) => Except.error ()

/-! ## The bounded dispatch loop of `waku_cron_job`, `run.py` lines 400-428 -/

/-- Events of a dispatch trace: a job is submitted (`start`) or its
future is awaited to a terminal state (`wait`). -/
inductive Ev (α : Type) : Type where
  | start : α → Ev α
  | wait : α → Ev α

/-- The jobs submitted along a trace, in order. -/
def startsOf {α : Type} (tr : List (Ev α)) : List α :=
  tr.filterMap (fun e => match e with | Ev.start c => some c | Ev.wait _ => none)

/-- The jobs awaited along a trace, in order. -/
def waitsOf {α : Type} (tr : List (Ev α)) : List α :=
  tr.filterMap (fun e => match e with | Ev.start _ => none | Ev.wait c => some c)

/-- The `while len(active_futures) >= parallel_limit` loop of lines
419-421: pop and await the head of the queue while the bound is met.
`Except.error` models the `IndexError` of `pop(0)` on an empty list,
which is reached exactly when `limit ≤ 0`. -/
def drainWhile {α : Type} (limit : Int) : List α → Except Unit (List (Ev α) × List α)
  | [] => if limit ≤ 0 then Except.error () else Except.ok ([], [])
  | a :: rest =>
    if limit ≤ (((a :: rest).length : Nat) : Int) then
      match drainWhile limit rest with
      | Except.error e => Except.error e
      | Except.ok pr => Except.ok (Ev.wait a :: pr.1, pr.2)
    else Except.ok ([], a :: rest)

/-- The `for config in matrix` loop of lines 417-424 followed by the
final drain of lines 427-428, producing the event trace. -/
def dispatchGo {α : Type} (limit : Int) : List α → List α → Except Unit (List (Ev α))
  | [], active => Except.ok (active.map Ev.wait)
  | c :: cs, active =>
    match drainWhile limit active with
    | Except.error e => Except.error e
    | Except.ok pr =>
      match dispatchGo limit cs (pr.2 ++ [c]) with
      | Except.error e => Except.error e
      | Except.ok tr => Except.ok (pr.1 ++ Ev.start c :: tr)

/-- The dispatch loop started with an empty active queue. -/
def dispatchRun {α : Type} (limit : Int) (matrix : List α) : Except Unit (List (Ev α)) :=
  dispatchGo limit matrix []

/-- Lines 408-410: the effective limit is `matrix[0]["parallel_limit"]`
when the matrix is nonempty, else 1. -/
def matrixLimit : List Config → Int
  | [] => 1
  | c :: _ => c.parallel_limit

/-- The dispatch portion of `waku_cron_job` (lines 408-428). -/
def waku_cron_dispatch (matrix : List Config) : Except Unit (List (Ev Config)) :=
  dispatchRun (matrixLimit matrix) matrix

/-- The value `waku_cron_job` hands back to its caller: the flow body
discards every `wait()` result (line 421 overwrites `completed`, lines
427-428 ignore the results) and has no `return` statement, so a
successful run returns Python `None` — modelled as `none`, with
`some outcomes` the (never produced) aggregate outcome list. -/
def waku_cron_result (matrix : List Config) : Except Unit (Option (List Str)) :=
  (waku_cron_dispatch matrix).map (fun _ => none)

/-! ## Claim-specific auxiliary definitions -/

/-- The accumulated section text for a list of body lines: each line is
appended with its trailing newline. -/
def joinNl (ls : List Str) : Str := ls.foldr (fun l acc => l ++ '\n' :: acc) []

/-- The integer-list resolver as claim C4 words it: resolve (default on
empty/sentinel), split, strip, keep digit tokens — and when no token
survives the filtering, parse the default string the same way. -/
def intListClaimed (val default_ : Str) : List Int :=
  let r := if val = [] ∨ val = noResponse then default_ else val
  let toks := (((psplit ',' r).map pstrip).filter pisdigit).map (fun t => (toNatDigits t : Int))
  if toks = [] then
    (((psplit ',' default_).map pstrip).filter pisdigit).map (fun t => (toNatDigits t : Int))
  else toks

/-- The comma/strip/digit tokenisation shared by `parse_list` and the
amended claim C4. -/
def intListTokens (s : Str) : List Int :=
  (((psplit ',' s).map pstrip).filter pisdigit).map (fun t => (toNatDigits t : Int))

/-- A request body whose `Parallelism` section is `0` (claim C2's
failing input). -/
def parallelismZeroBody : Str := "### Parallelism\n0".data

/-- The scenario C body of claim C8: publisher enabled, no message size. -/
def scenarioCBody : Str := "### Enable Publisher\nYes".data

/-- Scalars used to build sample configurations for witnesses. -/
def sampleScalars : Scalars :=
  { issue_number := JVal.jnum 1
    bootstrap_nodes := 3
    docker_image := "statusteam/nim-waku:latest".data
    pubsub_topic := fallbackTopic
    publisher_enabled := false
    publisher_message_size := 1
    publisher_delay := 10
    publisher_message_count := 1000
    artificial_latency := false
    latency_ms := 50
    nodes_command := []
    bootstrap_command := []
    parallel_limit := 1 }

/-- A sample configuration with the given index (parallel limit 1). -/
def sampleCfg (i : Nat) : Config := mkConfig sampleScalars i 10 5

/-! ## Lemmas about the dict model and the line loop -/

lemma dget_dset_self (d : List (Str × Str)) (k v : Str) : dget (dset d k v) k = some v := by
  induction d with
  | nil => simp [dset, dget]
  | cons kv rest ih =>
    by_cases h : kv.1 = k
    · simp [dset, dget, h]
    · simp [dset, dget, h, ih]

lemma dget_dset_ne (d : List (Str × Str)) (k k' v : Str) (h : k' ≠ k) :
    dget (dset d k v) k' = dget d k' := by
  induction d with
  | nil =>
    simp only [dset, dget]
    rw [if_neg (fun hh => h hh.symm)]
  | cons kv rest ih =>
    rcases kv with ⟨k0, v0⟩
    by_cases hk : k0 = k
    · simp only [dset, if_pos hk, dget]
      rw [if_neg (fun hh => h hh.symm), if_neg (by rw [hk]; exact fun hh => h hh.symm)]
    · simp only [dset, if_neg hk, dget]
      by_cases hk' : k0 = k'
      · rw [if_pos hk', if_pos hk']
      · rw [if_neg hk', if_neg hk', ih]

lemma dget_dappend_self (d : List (Str × Str)) (k v : Str) :
    dget (dappend d k v) k = some ((dget d k).getD [] ++ v) := by
  induction d with
  | nil => simp [dappend, dget]
  | cons kv rest ih =>
    by_cases h : kv.1 = k
    · simp [dappend, dget, h]
    · simp [dappend, dget, h, ih]

lemma dget_dappend_ne (d : List (Str × Str)) (k k' v : Str) (h : k' ≠ k) :
    dget (dappend d k v) k' = dget d k' := by
  induction d with
  | nil =>
    simp only [dappend, dget]
    rw [if_neg (fun hh => h hh.symm)]
  | cons kv rest ih =>
    rcases kv with ⟨k0, v0⟩
    by_cases hk : k0 = k
    · have hne0 : ¬ k0 = k' := by rw [hk]; exact fun hh => h hh.symm
      simp only [dappend, if_pos hk, dget]
      rw [if_neg hne0, if_neg hne0]
    · simp only [dappend, if_neg hk, dget]
      by_cases hk' : k0 = k'
      · rw [if_pos hk', if_pos hk']
      · rw [if_neg hk', if_neg hk', ih]

/-- Processing lines none of which is a header with title `t`, from a
state whose current section is not `t`, does not change the stored text
of `t` and cannot make `t` current. -/
lemma foldl_preserves_other (t : Str) :
    ∀ (ls : List Str) (d : List (Str × Str)) (cur : Option Str),
      (∀ l ∈ ls, isHeader l = true → titleOf l ≠ t) → cur ≠ some t →
      dget (ls.foldl lineStep (d, cur)).1 t = dget d t ∧
        (ls.foldl lineStep (d, cur)).2 ≠ some t := by
  intro ls
  induction ls with
  | nil => intro d cur _ hcur; exact ⟨rfl, hcur⟩
  | cons l rest ih =>
    intro d cur hls hcur
    have hl := hls l (List.mem_cons_self l rest)
    have hrest : ∀ x ∈ rest, isHeader x = true → titleOf x ≠ t := by
      intro x hx; exact hls x (List.mem_cons_of_mem l hx)
    by_cases hh : isHeader l
    · have hne : titleOf l ≠ t := hl hh
      have hstep : lineStep (d, cur) l = (dset d (titleOf l) [], some (titleOf l)) := by
        simp [lineStep, hh]
      rw [List.foldl_cons, hstep]
      have := ih (dset d (titleOf l) []) (some (titleOf l)) hrest (by simpa using hne)
      refine ⟨?_, this.2⟩
      rw [this.1]
      exact dget_dset_ne d (titleOf l) t [] (Ne.symm hne)
    · match cur with
      | none =>
        have hstep : lineStep (d, none) l = (d, none) := by simp [lineStep, hh]
        rw [List.foldl_cons, hstep]
        exact ih d none hrest hcur
      | some c =>
        by_cases hce : c = []
        · subst hce
          have hstep : lineStep (d, some []) l = (d, some []) := by simp [lineStep, hh]
          rw [List.foldl_cons, hstep]
          exact ih d (some []) hrest hcur
        · have hct : c ≠ t := by intro hct; exact hcur (by rw [hct])
          have hstep : lineStep (d, some c) l = (dappend d c (l ++ [ '\n' ]), some c) := by
            simp [lineStep, hh, hce]
          rw [List.foldl_cons, hstep]
          have := ih (dappend d c (l ++ [ '\n' ])) (some c) hrest (by simpa using hct)
          refine ⟨?_, this.2⟩
          rw [this.1]
          exact dget_dappend_ne d c t (l ++ [ '\n' ]) (Ne.symm hct)

/-- With no section open, header-free lines are discarded. -/
lemma foldl_discard_none :
    ∀ (ls : List Str) (d : List (Str × Str)),
      (∀ l ∈ ls, isHeader l = false) → ls.foldl lineStep (d, none) = (d, none) := by
  intro ls
  induction ls with
  | nil => intro d _; rfl
  | cons l rest ih =>
    intro d hls
    have hl := hls l (List.mem_cons_self l rest)
    have hstep : lineStep (d, none) l = (d, none) := by simp [lineStep, hl]
    rw [List.foldl_cons, hstep]
    exact ih d (fun x hx => hls x (List.mem_cons_of_mem l hx))

/-- With the empty-titled section current, header-free lines are
discarded (the Python `elif current:` treats `""` as falsy). -/
lemma foldl_discard_emptycur :
    ∀ (ls : List Str) (d : List (Str × Str)),
      (∀ l ∈ ls, isHeader l = false) → ls.foldl lineStep (d, some []) = (d, some []) := by
  intro ls
  induction ls with
  | nil => intro d _; rfl
  | cons l rest ih =>
    intro d hls
    have hl := hls l (List.mem_cons_self l rest)
    have hstep : lineStep (d, some []) l = (d, some []) := by simp [lineStep, hl]
    rw [List.foldl_cons, hstep]
    exact ih d (fun x hx => hls x (List.mem_cons_of_mem l hx))

/-- With a nonempty-titled section current, header-free lines each append
their text plus a newline to that section. -/
lemma foldl_append_run (c : Str) (hc : c ≠ []) :
    ∀ (ls : List Str) (d : List (Str × Str)),
      (∀ l ∈ ls, isHeader l = false) →
      ls.foldl lineStep (d, some c) =
        (ls.foldl (fun d2 l => dappend d2 c (l ++ [ '\n' ])) d, some c) := by
  intro ls
  induction ls with
  | nil => intro d _; rfl
  | cons l rest ih =>
    intro d hls
    have hl := hls l (List.mem_cons_self l rest)
    have hstep : lineStep (d, some c) l = (dappend d c (l ++ [ '\n' ]), some c) := by
      simp [lineStep, hl, hc]
    rw [List.foldl_cons, hstep, List.foldl_cons]
    exact ih (dappend d c (l ++ [ '\n' ])) (fun x hx => hls x (List.mem_cons_of_mem l hx))

/-- Accumulated value after a run of appends to key `c`. -/
lemma dget_append_chain (c : Str) :
    ∀ (ls : List Str) (d : List (Str × Str)) (v : Str), dget d c = some v →
      dget (ls.foldl (fun d2 l => dappend d2 c (l ++ [ '\n' ])) d) c = some (v ++ joinNl ls) := by
  intro ls
  induction ls with
  | nil => intro d v hv; simpa [joinNl] using hv
  | cons l rest ih =>
    intro d v hv
    rw [List.foldl_cons]
    have h1 : dget (dappend d c (l ++ [ '\n' ])) c = some (v ++ (l ++ [ '\n' ])) := by
      rw [dget_dappend_self, hv]; rfl
    have := ih (dappend d c (l ++ [ '\n' ])) (v ++ (l ++ [ '\n' ])) h1
    rw [this]
    simp [joinNl]

/-- First element surviving `dropWhile` falsifies the predicate. -/
lemma dropWhile_head_false {α : Type} (p : α → Bool) :
    ∀ (l : List α) (r : α) (rest : List α), l.dropWhile p = r :: rest → p r = false := by
  intro l
  induction l with
  | nil => intro r rest h; simp [List.dropWhile] at h
  | cons x xs ih =>
    intro r rest h
    by_cases hx : p x
    · rw [List.dropWhile_cons, if_pos hx] at h; exact ih r rest h
    · rw [List.dropWhile_cons, if_neg hx] at h
      obtain ⟨rfl, -⟩ := List.cons.inj h
      simpa using hx

/-- The text of a section title `t` after its last header occurrence: the
following lines up to the next header, each with its newline.  This is
the shared workhorse for claims C7 and C10. -/
lemma parse_last_header (pre post : List Str) (h t : Str)
    (hh : isHeader h = true) (ht : titleOf h = t) (hne : t ≠ [])
    (hpost : ∀ l ∈ post, isHeader l = true → titleOf l ≠ t) :
    dget (parseLineList (pre ++ h :: post)) t =
      some (joinNl (post.takeWhile (fun l => !isHeader l))) := by
  unfold parseLineList
  rw [List.foldl_append, List.foldl_cons]
  have hstep2 : lineStep (pre.foldl lineStep ([], none)) h =
      (dset (pre.foldl lineStep ([], none)).1 t [], some t) := by
    simp [lineStep, hh, ht]
  rw [hstep2]
  generalize (pre.foldl lineStep ([], none)).1 = d0
  have hdecomp := List.takeWhile_append_dropWhile (fun l => !isHeader l) post
  have hsegnohdr : ∀ l ∈ post.takeWhile (fun l => !isHeader l), isHeader l = false := by
    intro l hl; simpa using List.mem_takeWhile_imp hl
  conv_lhs => rw [← hdecomp]
  rw [List.foldl_append]
  rw [foldl_append_run t hne _ (dset d0 t []) hsegnohdr]
  have hacc := dget_append_chain t (post.takeWhile (fun l => !isHeader l)) (dset d0 t []) []
    (dget_dset_self d0 t [])
  rcases hr : post.dropWhile (fun l => !isHeader l) with - | ⟨r, rest2⟩
  · rw [List.foldl_nil]
    simpa using hacc
  · rw [List.foldl_cons]
    have hrhdr : isHeader r = true := by
      have := dropWhile_head_false (fun l => !isHeader l) post r rest2 hr
      simpa using this
    have hrpost : r ∈ post := by
      rw [← hdecomp, hr]
      exact List.mem_append_right _ (List.mem_cons_self _ _)
    have hrt : titleOf r ≠ t := hpost r hrpost hrhdr
    have hstep3 : lineStep
        ((post.takeWhile (fun l => !isHeader l)).foldl
          (fun d2 l => dappend d2 t (l ++ [ '\n' ])) (dset d0 t []), some t) r =
        (dset ((post.takeWhile (fun l => !isHeader l)).foldl
          (fun d2 l => dappend d2 t (l ++ [ '\n' ])) (dset d0 t [])) (titleOf r) [],
          some (titleOf r)) := by
      simp [lineStep, hrhdr]
    rw [hstep3]
    have hrest2 : ∀ l ∈ rest2, isHeader l = true → titleOf l ≠ t := by
      intro l hl
      have hlpost : l ∈ post := by
        rw [← hdecomp, hr]
        exact List.mem_append_right _ (List.mem_cons_of_mem r hl)
      exact hpost l hlpost
    have hpres := foldl_preserves_other t rest2
      (dset ((post.takeWhile (fun l => !isHeader l)).foldl
        (fun d2 l => dappend d2 t (l ++ [ '\n' ])) (dset d0 t [])) (titleOf r) [])
      (some (titleOf r)) hrest2 (by simpa using hrt)
    rw [hpres.1]
    rw [dget_dset_ne _ _ _ _ (Ne.symm hrt)]
    simpa using hacc

/-! ## Claims C7 and C10: the line-by-line form parser -/

/-- C7 counterexample: after the header line `"### "` (whose title strips
to the empty string) a section named `""` is opened with empty text, but
the following line `"x"` is **not** appended to it (Python's
`elif current:` is false for the empty string), contradicting the claim
that every non-header line is appended to the currently open section. -/
theorem c7_counterexample :
    parseBody ("### \nx".data) = [([], [])] ∧
    dget (parseBody ("### \nx".data)) [] ≠ some ("x\n".data) := by
  constructor
  · rfl
  · decide

/-- C7 (amended): the parser scans line by line and never fails; a line
with the header prefix opens a section whose text is reset to empty;
every other line is appended with its trailing newline to the current
section **provided the current section's title is nonempty**; lines
before the first header, and lines following a header whose title strips
to the empty string, are discarded; a body with no header lines yields
the empty ParameterSet. -/
theorem c7_form_scanner_amended :
    (∀ ls : List Str, (∀ l ∈ ls, isHeader l = false) → parseLineList ls = []) ∧
    (∀ pre rest : List Str, (∀ l ∈ pre, isHeader l = false) →
       parseLineList (pre ++ rest) = parseLineList rest) ∧
    (∀ pre post : List Str, ∀ h t : Str, isHeader h = true → titleOf h = t → t ≠ [] →
       (∀ l ∈ post, isHeader l = true → titleOf l ≠ t) →
       dget (parseLineList (pre ++ h :: post)) t =
         some (joinNl (post.takeWhile (fun l => !isHeader l)))) ∧
    (∀ pre post : List Str, ∀ h : Str, isHeader h = true → titleOf h = [] →
       (∀ l ∈ post, isHeader l = false) →
       parseLineList (pre ++ h :: post) = parseLineList (pre ++ [h])) := by
  refine ⟨?_, ?_, ?_, ?_⟩
  · intro ls hls
    unfold parseLineList
    rw [foldl_discard_none ls [] hls]
  · intro pre rest hpre
    unfold parseLineList
    rw [List.foldl_append, foldl_discard_none pre [] hpre]
  · intro pre post h t hh ht hne hpost
    exact parse_last_header pre post h t hh ht hne hpost
  · intro pre post h hh ht hpost
    unfold parseLineList
    rw [List.foldl_append, List.foldl_cons, List.foldl_append, List.foldl_cons]
    have hstep : lineStep (pre.foldl lineStep ([], none)) h =
        (dset (pre.foldl lineStep ([], none)).1 [] [], some []) := by
      simp [lineStep, hh, ht]
    rw [hstep, List.foldl_nil,
      foldl_discard_emptycur post (dset (pre.foldl lineStep ([], none)).1 [] []) hpost]

/-- C7 witness: concrete instances of the conjuncts of the amended claim. -/
theorem c7_witness :
    parseLineList ["ab".data] = [] ∧
    dget (parseLineList (["junk".data] ++ "### A".data :: ["1".data])) ("A".data) =
      some ("1\n".data) ∧
    parseLineList (["### A".data, "x".data] ++ "### ".data :: ["y".data]) =
      parseLineList (["### A".data, "x".data] ++ ["### ".data]) := by
  refine ⟨?_, ?_, ?_⟩
  · exact c7_form_scanner_amended.1 ["ab".data] (by decide)
  · have := c7_form_scanner_amended.2.2.1 ["junk".data] ["1".data] ("### A".data) ("A".data)
      (by decide) (by decide) (by decide) (by decide)
    simpa using this
  · exact c7_form_scanner_amended.2.2.2 ["### A".data, "x".data] ["y".data] ("### ".data)
      (by decide) (by decide) (by decide)

/-- C10: when a section title occurs more than once, the ParameterSet
maps it to exactly the text accumulated after its last header occurrence
(the following lines up to the next header line, each with its trailing
newline); earlier accumulations are reset and discarded. -/
theorem c10_last_occurrence_wins (pre post : List Str) (hd h t : Str)
    (hmem : hd ∈ pre) (hhd : isHeader hd = true) (hhdt : titleOf hd = t)
    (hh : isHeader h = true) (ht : titleOf h = t) (hne : t ≠ [])
    (hpost : ∀ l ∈ post, isHeader l = true → titleOf l ≠ t) :
    dget (parseLineList (pre ++ h :: post)) t =
      some (joinNl (post.takeWhile (fun l => !isHeader l))) :=
  parse_last_header pre post h t hh ht hne hpost

/-- C10 witness: the title `A` occurs twice; only the text after the
second occurrence is kept. -/
theorem c10_witness :
    dget (parseLineList (["### A".data, "old".data] ++ "### A".data :: ["new".data]))
      ("A".data) = some ("new\n".data) := by
  have := c10_last_occurrence_wins ["### A".data, "old".data] ["new".data]
    ("### A".data) ("### A".data) ("A".data)
    (by decide) (by decide) (by decide) (by decide) (by decide) (by decide) (by decide)
  simpa using this

/-! ## Claim C4: the integer-list resolver -/

/-- Tokenisation of `parse_list` in map-then-filter form. -/
lemma tokens_eq (s : Str) :
    ((psplit ',' s).filter (fun t => pisdigit (pstrip t))).map
      (fun t => (toNatDigits (pstrip t) : Int)) = intListTokens s := by
  unfold intListTokens
  rw [List.filter_map, List.map_map]
  rfl

/-- C4 counterexample: on input `"abc"` with default `"0"` no token
survives the digit filter, yet `parse_list` returns `[]` — it does *not*
fall back to parsing the default (which would give `[0]`): the default is
substituted only for an empty or sentinel raw value, before splitting. -/
theorem c4_counterexample :
    parse_list ("abc".data) ("0".data) = [] ∧
    intListClaimed ("abc".data) ("0".data) = [0] := by
  constructor
  · rfl
  · rfl

/-- C4 (amended): `parse_list` substitutes the default only when the raw
value is empty or the `_No response_` sentinel (before splitting); it
then keeps exactly the comma-separated, stripped, all-digit tokens as
(necessarily non-negative) integers, and never fails.  When tokens exist
but none is numeric the result is the empty list, not the default's
parse. -/
theorem c4_intlist_amended (val default_ : Str) :
    parse_list val default_ =
      (if val = [] ∨ val = noResponse then intListTokens default_ else intListTokens val) ∧
    (∀ x ∈ parse_list val default_, 0 ≤ x) := by
  constructor
  · unfold parse_list
    by_cases h : val = [] ∨ val = noResponse
    · rw [if_pos h, if_pos h, tokens_eq]
    · rw [if_neg h, if_neg h, tokens_eq]
  · intro x hx
    unfold parse_list at hx
    obtain ⟨t, -, rfl⟩ := List.mem_map.1 hx
    exact Int.natCast_nonneg _

/-- C4 witness: a mixed token list keeps only the numeric token, and the
kept value is non-negative. -/
theorem c4_witness :
    parse_list ("7,x".data) ("0".data) =
      (if ("7,x".data : Str) = [] ∨ ("7,x".data : Str) = noResponse
        then intListTokens ("0".data) else intListTokens ("7,x".data)) ∧
    (0 : Int) ≤ 7 := by
  refine ⟨(c4_intlist_amended ("7,x".data) ("0".data)).1, ?_⟩
  have h7 : (7 : Int) ∈ parse_list ("7,x".data) ("0".data) := by decide
  exact (c4_intlist_amended ("7,x".data) ("0".data)).2 7 h7

/-! ## Claim C8: the boolean resolver and scenario C -/

/-- C8 counterexample: with default `true` and text `"no"`, `safe_bool`
returns `false`, not the default — refuting the claim that any text
other than `"yes"` yields the default. -/
theorem c8_counterexample : ¬ (safe_bool ("no".data) true = true) := by decide

/-- C8 (amended): for the default `false` — the only default the
pipeline ever passes (`run.py` lines 97 and 102) — the resolver yields
`true` exactly when the lowercase-folded text equals `"yes"`; the
default is returned only for empty or sentinel input; and scenario C
holds: a body enabling the publisher with no message-size section yields
`publisher_enabled = true` and `publisher_message_size = 1`. -/
theorem c8_bool_resolver_amended :
    (∀ val : Str, safe_bool val false = decide (plower val = "yes".data)) ∧
    (genMatrixFromBody scenarioCBody (JVal.jnum 3)).map
      (fun c => (c.publisher_enabled, c.publisher_message_size)) = [(true, 1)] := by
  constructor
  · intro val
    unfold safe_bool
    by_cases h : val = [] ∨ val = noResponse
    · rw [if_pos h]
      rcases h with h | h <;> subst h <;> decide
    · rw [if_neg h]
  · rfl

/-! ## Lemmas about dispatch traces -/

@[simp] lemma startsOf_cons_start {α : Type} (c : α) (tr : List (Ev α)) :
    startsOf (Ev.start c :: tr) = c :: startsOf tr := by
  simp [startsOf, List.filterMap_cons]

@[simp] lemma startsOf_cons_wait {α : Type} (c : α) (tr : List (Ev α)) :
    startsOf (Ev.wait c :: tr) = startsOf tr := by
  simp [startsOf, List.filterMap_cons]

@[simp] lemma waitsOf_cons_start {α : Type} (c : α) (tr : List (Ev α)) :
    waitsOf (Ev.start c :: tr) = waitsOf tr := by
  simp [waitsOf, List.filterMap_cons]

@[simp] lemma waitsOf_cons_wait {α : Type} (c : α) (tr : List (Ev α)) :
    waitsOf (Ev.wait c :: tr) = c :: waitsOf tr := by
  simp [waitsOf, List.filterMap_cons]

lemma startsOf_append {α : Type} (p q : List (Ev α)) :
    startsOf (p ++ q) = startsOf p ++ startsOf q :=
  List.filterMap_append _ _ _

lemma waitsOf_append {α : Type} (p q : List (Ev α)) :
    waitsOf (p ++ q) = waitsOf p ++ waitsOf q :=
  List.filterMap_append _ _ _

lemma startsOf_map_wait {α : Type} (l : List α) : startsOf (l.map Ev.wait) = [] := by
  induction l with
  | nil => rfl
  | cons a t ih => simpa using ih

lemma waitsOf_map_wait {α : Type} (l : List α) : waitsOf (l.map Ev.wait) = l := by
  induction l with
  | nil => rfl
  | cons a t ih => simpa using ih

/-- Splitting an append equation at a marked element of the right-hand
list: either `p` ends inside `A`, or `p` covers `A ++ [x]`. -/
lemma append_split_cases {α : Type} :
    ∀ (A : List α) (x : α) (B p q : List α), p ++ q = A ++ x :: B →
      (∃ r, p ++ r = A) ∨ (∃ p2, p = A ++ x :: p2 ∧ p2 ++ q = B) := by
  intro A
  induction A with
  | nil =>
    intro x B p q h
    cases p with
    | nil => exact Or.inl ⟨[], rfl⟩
    | cons y p2 =>
      simp only [List.cons_append, List.nil_append] at h
      obtain ⟨rfl, h2⟩ := List.cons.inj h
      exact Or.inr ⟨p2, rfl, h2⟩
  | cons a A2 ih =>
    intro x B p q h
    cases p with
    | nil => exact Or.inl ⟨a :: A2, rfl⟩
    | cons y p2 =>
      simp only [List.cons_append] at h
      obtain ⟨rfl, h2⟩ := List.cons.inj h
      rcases ih x B p2 q h2 with ⟨r, hr⟩ | ⟨p3, hp3, hq3⟩
      · exact Or.inl ⟨r, by rw [List.cons_append, hr]⟩
      · exact Or.inr ⟨p3, by rw [List.cons_append, hp3], hq3⟩

/-- A queue shorter than the limit is not drained at all. -/
lemma drainWhile_noop {α : Type} (limit : Int) (l : List α)
    (h : (l.length : Int) < limit) : drainWhile limit l = Except.ok ([], l) := by
  cases l with
  | nil =>
    have h0 : (0 : Int) < limit := by simpa using h
    simp only [drainWhile]
    rw [if_neg (by omega)]
  | cons a t =>
    simp only [drainWhile]
    rw [if_neg (by simp only [List.length_cons] at h ⊢; omega)]

/-- With `1 ≤ limit` and a queue not longer than the limit, the drain
loop succeeds, pops an initial segment of the queue (in order), and
leaves strictly fewer than `limit` entries. -/
lemma drainWhile_spec {α : Type} (limit : Int) (hl : 1 ≤ limit) (active : List α)
    (hlen : (active.length : Int) ≤ limit) :
    ∃ dropped rest, drainWhile limit active = Except.ok (dropped.map Ev.wait, rest) ∧
      dropped ++ rest = active ∧ ((rest.length : Int) < limit) := by
  by_cases hfull : limit ≤ (active.length : Int)
  · cases active with
    | nil => exfalso; simp at hfull; omega
    | cons a t =>
      have ht : ((t.length : Nat) : Int) < limit := by
        simp only [List.length_cons] at hlen
        push_cast at hlen ⊢
        omega
      refine ⟨[a], t, ?_, rfl, ht⟩
      simp only [drainWhile]
      rw [if_pos hfull, drainWhile_noop limit t ht]
      rfl
  · have hlt : (active.length : Int) < limit := not_le.1 hfull
    exact ⟨[], active, drainWhile_noop limit active hlt, rfl, hlt⟩

/-- Main specification of the dispatch loop of `waku_cron_job`: it
succeeds, submits exactly the configurations in matrix order, awaits the
initial queue and then every configuration in FIFO order, never holds
more than `limit` active slots (counting starts minus waits over any
trace prefix), and every wait pops a nonempty queue. -/
lemma dispatchGo_spec {α : Type} (limit : Int) (hl : 1 ≤ limit) :
    ∀ (cs active : List α), (active.length : Int) ≤ limit →
      ∃ tr, dispatchGo limit cs active = Except.ok tr ∧
        startsOf tr = cs ∧
        waitsOf tr = active ++ cs ∧
        (∀ p q, p ++ q = tr →
          active.length + (startsOf p).length ≤ (waitsOf p).length + limit.toNat) ∧
        (∀ p c q, p ++ Ev.wait c :: q = tr →
          (waitsOf p).length < active.length + (startsOf p).length) := by
  intro cs
  induction cs with
  | nil =>
    intro active hlen
    refine ⟨active.map Ev.wait, rfl, startsOf_map_wait active,
      by rw [waitsOf_map_wait, List.append_nil], ?_, ?_⟩
    · intro p q hpq
      have hs : startsOf p = [] := by
        have h2 : startsOf p ++ startsOf q = [] := by
          rw [← startsOf_append, hpq, startsOf_map_wait]
        exact (List.append_eq_nil.1 h2).1
      rw [hs]
      simp only [List.length_nil, Nat.add_zero]
      omega
    · intro p c q hpq
      have hlenp : p.length + (q.length + 1) = active.length := by
        have h2 := congrArg List.length hpq
        simpa [List.length_append] using h2
      have hw : (waitsOf p).length ≤ p.length := List.length_filterMap_le _ _
      omega
  | cons c cs' ih =>
    intro active hlen
    obtain ⟨dropped, rest, hdr, hsplit, hrest⟩ := drainWhile_spec limit hl active hlen
    have hlen2 : (((rest ++ [c]).length : Nat) : Int) ≤ limit := by
      simp only [List.length_append, List.length_cons, List.length_nil]
      push_cast
      omega
    obtain ⟨tr', htr', hst', hwt', hbd', hpn'⟩ := ih (rest ++ [c]) hlen2
    have hal : active.length = dropped.length + rest.length := by
      rw [← hsplit]; simp [List.length_append]
    refine ⟨dropped.map Ev.wait ++ Ev.start c :: tr', ?_, ?_, ?_, ?_, ?_⟩
    · simp only [dispatchGo, hdr, htr']
    · rw [startsOf_append, startsOf_map_wait, List.nil_append, startsOf_cons_start, hst']
    · rw [waitsOf_append, waitsOf_map_wait, waitsOf_cons_start, hwt', ← hsplit]
      simp [List.append_assoc]
    · intro p q hpq
      rcases append_split_cases (dropped.map Ev.wait) (Ev.start c) tr' p q hpq with
        ⟨r, hr⟩ | ⟨p2, hp2, hq2⟩
      · have hs : startsOf p = [] := by
          have h2 : startsOf p ++ startsOf r = [] := by
            rw [← startsOf_append, hr, startsOf_map_wait]
          exact (List.append_eq_nil.1 h2).1
        rw [hs]
        simp only [List.length_nil, Nat.add_zero]
        omega
      · have hb := hbd' p2 q hq2
        have hsp : startsOf p = c :: startsOf p2 := by
          rw [hp2, startsOf_append, startsOf_map_wait, List.nil_append, startsOf_cons_start]
        have hwp : waitsOf p = dropped ++ waitsOf p2 := by
          rw [hp2, waitsOf_append, waitsOf_map_wait, waitsOf_cons_start]
        rw [hsp, hwp]
        simp only [List.length_cons, List.length_append]
        simp only [List.length_append, List.length_cons, List.length_nil] at hb
        omega
    · intro p c0 q hpq
      rcases append_split_cases (dropped.map Ev.wait) (Ev.start c) tr' p (Ev.wait c0 :: q) hpq
        with ⟨r, hr⟩ | ⟨p2, hp2, hq2⟩
      · have hr2 : Ev.wait c0 :: q = r ++ Ev.start c :: tr' := by
          have h2 : p ++ (Ev.wait c0 :: q) = p ++ (r ++ Ev.start c :: tr') := by
            rw [hpq, ← hr, List.append_assoc]
          exact List.append_cancel_left h2
        cases r with
        | nil => simp at hr2
        | cons y r2 =>
          have hlp : p.length + (r2.length + 1) = dropped.length := by
            have h2 := congrArg List.length hr
            simpa [List.length_append] using h2
          have hw : (waitsOf p).length ≤ p.length := List.length_filterMap_le _ _
          omega
      · have hp := hpn' p2 c0 q hq2
        have hsp : startsOf p = c :: startsOf p2 := by
          rw [hp2, startsOf_append, startsOf_map_wait, List.nil_append, startsOf_cons_start]
        have hwp : waitsOf p = dropped ++ waitsOf p2 := by
          rw [hp2, waitsOf_append, waitsOf_map_wait, waitsOf_cons_start]
        rw [hsp, hwp]
        simp only [List.length_cons, List.length_append]
        simp only [List.length_append, List.length_cons, List.length_nil] at hp
        omega

/-! ## Claim C1: bounded FIFO dispatch -/

/-- C1: for every matrix and every limit ≥ 1 the dispatch loop succeeds
with a trace in which (i) jobs are started exactly in matrix order,
(ii) jobs are awaited exactly in matrix order, (iii) over every trace
prefix the number of started jobs never exceeds the number of awaited
jobs plus the limit (the active-slot count never exceeds the limit), and
(iv) every wait targets the oldest still-active slot: when a wait of `c`
occurs, the configurations awaited so far are exactly the first `k`
matrix entries, `c` is matrix entry `k`, and `c` has already started —
never a younger slot. -/
theorem c1_bounded_fifo_dispatch (limit : Int) (matrix : List Config) (hl : 1 ≤ limit) :
    ∃ tr, dispatchRun limit matrix = Except.ok tr ∧
      startsOf tr = matrix ∧
      waitsOf tr = matrix ∧
      (∀ p q, p ++ q = tr → (startsOf p).length ≤ (waitsOf p).length + limit.toNat) ∧
      (∀ p c q, p ++ Ev.wait c :: q = tr →
        matrix.take (waitsOf p).length = waitsOf p ∧
        matrix[(waitsOf p).length]? = some c ∧
        (waitsOf p).length < (startsOf p).length) := by
  obtain ⟨tr, htr, hst, hwt, hbd, hpn⟩ :=
    dispatchGo_spec limit hl matrix []
      (by simp only [List.length_nil, Nat.cast_zero]; omega)
  rw [List.nil_append] at hwt
  refine ⟨tr, htr, hst, hwt, ?_, ?_⟩
  · intro p q hpq
    have h2 := hbd p q hpq
    simpa using h2
  · intro p c q hpq
    have hdec : waitsOf p ++ c :: waitsOf q = matrix := by
      rw [← hwt, ← hpq, waitsOf_append, waitsOf_cons_wait]
    refine ⟨?_, ?_, ?_⟩
    · rw [← hdec]
      exact List.take_left _ _
    · rw [← hdec, List.getElem?_append_right (le_refl _)]
      simp
    · have h2 := hpn p c q hpq
      simpa using h2

/-- C1 witness: two configurations at limit 1. -/
theorem c1_witness :
    ∃ tr, dispatchRun 1 [sampleCfg 0, sampleCfg 1] = Except.ok tr ∧
      startsOf tr = [sampleCfg 0, sampleCfg 1] ∧
      waitsOf tr = [sampleCfg 0, sampleCfg 1] ∧
      (∀ p q, p ++ q = tr → (startsOf p).length ≤ (waitsOf p).length + (1 : Int).toNat) ∧
      (∀ p c q, p ++ Ev.wait c :: q = tr →
        [sampleCfg 0, sampleCfg 1].take (waitsOf p).length = waitsOf p ∧
        [sampleCfg 0, sampleCfg 1][(waitsOf p).length]? = some c ∧
        (waitsOf p).length < (startsOf p).length) :=
  c1_bounded_fifo_dispatch 1 [sampleCfg 0, sampleCfg 1] (by decide)

/-! ## Claim C2: a declared limit of zero -/

/-- C2 is a code bug: a body declaring `Parallelism: 0` produces a
nonempty matrix whose `parallel_limit` is 0, and the dispatch loop then
raises (`active_futures.pop(0)` on an empty list — `IndexError`) before
starting any job, instead of treating the limit as 1 as the
specification requires. -/
theorem c2_zero_limit_code_bug :
    (genMatrixFromBody parallelismZeroBody (JVal.jnum 7)).map Config.parallel_limit = [0] ∧
    waku_cron_dispatch (genMatrixFromBody parallelismZeroBody (JVal.jnum 7)) =
      Except.error () := by
  constructor
  · rfl
  · rfl

/-! ## Claim C3: the aggregate outcome list -/

/-- C3 counterexample: even on a one-configuration matrix that dispatches
successfully, the flow returns `none` (Python `None`) — it never returns
an aggregate outcome list with one entry per configuration. -/
theorem c3_counterexample :
    ¬ ∃ outcomes : List Str, waku_cron_result [sampleCfg 0] = Except.ok (some outcomes) := by
  intro hex
  obtain ⟨l, hl⟩ := hex
  have hres : waku_cron_result [sampleCfg 0] = Except.ok (none : Option (List Str)) := rfl
  rw [hres] at hl
  simp at hl

/-- C3 (amended): for a matrix whose declared limit is ≥ 1 the flow
drives every configuration to exactly one terminal `wait`, in matrix
`index` order, and completes without raising even though `wait()` never
re-raises job failures — but it discards every outcome and returns
`None`: no aggregate outcome list is handed to the caller. -/
theorem c3_waits_all_returns_none (matrix : List Config)
    (hl : 1 ≤ matrixLimit matrix) :
    ∃ tr, waku_cron_dispatch matrix = Except.ok tr ∧
      startsOf tr = matrix ∧ waitsOf tr = matrix ∧
      waku_cron_result matrix = Except.ok none := by
  obtain ⟨tr, htr, hst, hwt, -, -⟩ :=
    dispatchGo_spec (matrixLimit matrix) hl matrix []
      (by simp only [List.length_nil, Nat.cast_zero]; omega)
  rw [List.nil_append] at hwt
  have hd : waku_cron_dispatch matrix = Except.ok tr := htr
  refine ⟨tr, hd, hst, hwt, ?_⟩
  unfold waku_cron_result
  rw [hd]
  rfl

/-- C3 witness: the amended claim at a concrete one-job matrix. -/
theorem c3_witness :
    ∃ tr, waku_cron_dispatch [sampleCfg 0] = Except.ok tr ∧
      startsOf tr = [sampleCfg 0] ∧ waitsOf tr = [sampleCfg 0] ∧
      waku_cron_result [sampleCfg 0] = Except.ok none :=
  c3_waits_all_returns_none [sampleCfg 0] (by decide)

/-! ## Lemmas about the matrix expansion loops -/

@[simp] lemma mkConfig_index (sc : Scalars) (i : Nat) (n d : Int) :
    (mkConfig sc i n d).index = i := rfl

@[simp] lemma mkConfig_pubsub (sc : Scalars) (i : Nat) (n d : Int) :
    (mkConfig sc i n d).pubsub_topic = sc.pubsub_topic := rfl

lemma innerLoop_snd (sc : Scalars) (n : Int) :
    ∀ (ds : List Int) (i : Nat), (innerLoop sc n ds i).2 = i + ds.length := by
  intro ds
  induction ds with
  | nil => intro i; simp [innerLoop]
  | cons d ds' ih =>
    intro i
    simp only [innerLoop, List.length_cons]
    rw [ih (i + 1)]
    omega

lemma innerLoop_length (sc : Scalars) (n : Int) :
    ∀ (ds : List Int) (i : Nat), (innerLoop sc n ds i).1.length = ds.length := by
  intro ds
  induction ds with
  | nil => intro i; rfl
  | cons d ds' ih =>
    intro i
    simp only [innerLoop, List.length_cons]
    rw [ih (i + 1)]

lemma innerLoop_map_index (sc : Scalars) (n : Int) :
    ∀ (ds : List Int) (i : Nat),
      (innerLoop sc n ds i).1.map Config.index = List.range' i ds.length := by
  intro ds
  induction ds with
  | nil => intro i; simp [innerLoop]
  | cons d ds' ih =>
    intro i
    simp only [innerLoop, List.map_cons, mkConfig_index, List.length_cons]
    rw [ih (i + 1), List.range'_succ]

lemma innerLoop_getElem (sc : Scalars) (n : Int) :
    ∀ (ds : List Int) (i r : Nat) (d : Int), ds[r]? = some d →
      (innerLoop sc n ds i).1[r]? = some (mkConfig sc (i + r) n d) := by
  intro ds
  induction ds with
  | nil => intro i r d h; simp at h
  | cons d0 ds' ih =>
    intro i r d h
    cases r with
    | zero =>
      rw [List.getElem?_cons_zero] at h
      obtain rfl := Option.some.inj h
      simp [innerLoop]
    | succ r' =>
      rw [List.getElem?_cons_succ] at h
      simp only [innerLoop, List.getElem?_cons_succ]
      have e : i + (r' + 1) = (i + 1) + r' := by omega
      rw [e]
      exact ih (i + 1) r' d h

lemma innerLoop_mem (sc : Scalars) (n : Int) :
    ∀ (ds : List Int) (i : Nat) (cfg : Config), cfg ∈ (innerLoop sc n ds i).1 →
      ∃ j d, cfg = mkConfig sc j n d := by
  intro ds
  induction ds with
  | nil => intro i cfg h; simp [innerLoop] at h
  | cons d0 ds' ih =>
    intro i cfg h
    simp only [innerLoop, List.mem_cons] at h
    rcases h with rfl | h
    · exact ⟨i, d0, rfl⟩
    · exact ih (i + 1) cfg h

lemma outerLoop_length (sc : Scalars) (ds : List Int) :
    ∀ (ns : List Int) (i : Nat), (outerLoop sc ds ns i).1.length = ns.length * ds.length := by
  intro ns
  induction ns with
  | nil => intro i; simp [outerLoop]
  | cons n ns' ih =>
    intro i
    simp only [outerLoop, List.length_append, List.length_cons]
    rw [innerLoop_length, ih, Nat.succ_mul]
    omega

lemma outerLoop_map_index (sc : Scalars) (ds : List Int) :
    ∀ (ns : List Int) (i : Nat),
      (outerLoop sc ds ns i).1.map Config.index = List.range' i (ns.length * ds.length) := by
  intro ns
  induction ns with
  | nil => intro i; simp [outerLoop]
  | cons n ns' ih =>
    intro i
    simp only [outerLoop, List.map_append]
    rw [innerLoop_map_index sc n ds i, innerLoop_snd sc n ds i, ih (i + ds.length)]
    have h := List.range'_append i ds.length (ns'.length * ds.length) 1
    rw [one_mul] at h
    rw [h, List.length_cons, Nat.succ_mul, Nat.add_comm (ns'.length * ds.length) ds.length]

lemma outerLoop_getElem (sc : Scalars) (ds : List Int) :
    ∀ (ns : List Int) (i q r : Nat) (n d : Int), ns[q]? = some n → ds[r]? = some d →
      (outerLoop sc ds ns i).1[q * ds.length + r]? =
        some (mkConfig sc (i + (q * ds.length + r)) n d) := by
  intro ns
  induction ns with
  | nil => intro i q r n d h _; simp at h
  | cons n0 ns' ih =>
    intro i q r n d hq hd
    have hr : r < ds.length := by
      rcases List.getElem?_eq_some.1 hd with ⟨hlt, -⟩
      exact hlt
    cases q with
    | zero =>
      rw [List.getElem?_cons_zero] at hq
      obtain rfl := Option.some.inj hq
      have hidx : 0 * ds.length + r = r := by omega
      rw [hidx]
      simp only [outerLoop]
      rw [List.getElem?_append_left (by rw [innerLoop_length]; exact hr)]
      exact innerLoop_getElem sc n0 ds i r d hd
    | succ q' =>
      rw [List.getElem?_cons_succ] at hq
      simp only [outerLoop]
      rw [List.getElem?_append_right (by rw [innerLoop_length, Nat.succ_mul]; omega)]
      rw [innerLoop_length, innerLoop_snd]
      have e : (q' + 1) * ds.length + r - ds.length = q' * ds.length + r := by
        rw [Nat.succ_mul]; omega
      rw [e]
      have e2 : i + ((q' + 1) * ds.length + r) = (i + ds.length) + (q' * ds.length + r) := by
        rw [Nat.succ_mul]; omega
      rw [e2]
      exact ih (i + ds.length) q' r n d hq hd

lemma outerLoop_mem (sc : Scalars) (ds : List Int) :
    ∀ (ns : List Int) (i : Nat) (cfg : Config), cfg ∈ (outerLoop sc ds ns i).1 →
      ∃ j n d, cfg = mkConfig sc j n d := by
  intro ns
  induction ns with
  | nil => intro i cfg h; simp [outerLoop] at h
  | cons n ns' ih =>
    intro i cfg h
    simp only [outerLoop, List.mem_append] at h
    rcases h with h | h
    · obtain ⟨j, d, rfl⟩ := innerLoop_mem sc n ds i cfg h
      exact ⟨j, n, d, rfl⟩
    · exact ih _ cfg h

/-! ## Claim C5: matrix shape and index assignment -/

/-- C5: the expanded matrix has exactly `|N| × |D|` configurations; the
`index` fields are exactly `0 .. |N|·|D| − 1` in order with no gaps or
repeats; the entry at position `q·|D| + r` pairs node count `N[q]` with
duration `D[r]` (node-count-major, duration-minor order); and an empty
axis yields an empty matrix. -/
theorem c5_matrix_shape (sc : Scalars) (ns ds : List Int) :
    (expandMatrix sc ns ds).length = ns.length * ds.length ∧
    (expandMatrix sc ns ds).map Config.index = List.range (ns.length * ds.length) ∧
    (∀ (q r : Nat) (n d : Int), ns[q]? = some n → ds[r]? = some d →
      (expandMatrix sc ns ds)[q * ds.length + r]? =
        some (mkConfig sc (q * ds.length + r) n d)) ∧
    ((ns = [] ∨ ds = []) → expandMatrix sc ns ds = []) := by
  refine ⟨?_, ?_, ?_, ?_⟩
  · exact outerLoop_length sc ds ns 0
  · unfold expandMatrix
    rw [outerLoop_map_index, List.range_eq_range']
  · intro q r n d hq hd
    have h := outerLoop_getElem sc ds ns 0 q r n d hq hd
    simpa using h
  · intro h
    rcases h with rfl | rfl
    · rfl
    · have hlen : (expandMatrix sc ns []).length = ns.length * [].length :=
        outerLoop_length sc [] ns 0
      simp only [List.length_nil, Nat.mul_zero] at hlen
      exact List.length_eq_zero.1 hlen

/-- C5 witness: two node counts and one duration give two configurations
and position 1 holds the second node count with index 1. -/
theorem c5_witness :
    (expandMatrix sampleScalars [10, 20] [5])[1]? = some (mkConfig sampleScalars 1 20 5) ∧
    (expandMatrix sampleScalars [10, 20] [5]).length = 2 := by
  constructor
  · have h := (c5_matrix_shape sampleScalars [10, 20] [5]).2.2.1 1 0 20 5 rfl rfl
    simpa using h
  · rfl

/-! ## Claim C6: pubsub-topic validation and fallback -/

/-- The pubsub topic stored in the scalar record, as `run.py` lines
89-95 compute it. -/
lemma bodyScalars_pubsub (body : Str) (num : JVal) :
    (bodyScalars body num).pubsub_topic =
      if resolvedTopic body = [] ∨ ¬ pstartswith (resolvedTopic body) wakuMarker
      then fallbackTopic else resolvedTopic body := rfl

/-- C6: when the resolved PubSub Topic is absent/empty or does not start
with `"/waku/2/rs"`, every configuration of the matrix carries the fixed
fallback topic `"/waku/2/rs/2/0"` (a substitution, not an error);
otherwise every configuration carries the resolved value verbatim. -/
theorem c6_pubsub_validation (body : Str) (num : JVal) :
    ((resolvedTopic body = [] ∨ pstartswith (resolvedTopic body) wakuMarker = false) →
      ∀ cfg ∈ genMatrixFromBody body num, cfg.pubsub_topic = fallbackTopic) ∧
    (pstartswith (resolvedTopic body) wakuMarker = true →
      ∀ cfg ∈ genMatrixFromBody body num, cfg.pubsub_topic = resolvedTopic body) := by
  have hmem : ∀ cfg ∈ genMatrixFromBody body num,
      cfg.pubsub_topic = (bodyScalars body num).pubsub_topic := by
    intro cfg hcfg
    obtain ⟨j, n, d, rfl⟩ := outerLoop_mem (bodyScalars body num) (bodyDurations body)
      (bodyNodes body) 0 cfg hcfg
    rfl
  constructor
  · intro hcond cfg hcfg
    rw [hmem cfg hcfg, bodyScalars_pubsub, if_pos ?_]
    rcases hcond with h | h
    · exact Or.inl h
    · exact Or.inr (by rw [h]; exact Bool.false_ne_true)
  · intro hcond cfg hcfg
    have hc : ¬ (resolvedTopic body = [] ∨ ¬ pstartswith (resolvedTopic body) wakuMarker = true) := by
      rintro (hemp | hns)
      · rw [hemp] at hcond
        exact absurd hcond (by decide)
      · exact hns hcond
    rw [hmem cfg hcfg, bodyScalars_pubsub, if_neg hc]

/-- C6 witness: a body with no PubSub Topic section resolves to the
fixed fallback topic in every configuration. -/
theorem c6_witness :
    ∀ cfg ∈ genMatrixFromBody ("### Number of nodes\n2".data) (JVal.jnum 1),
      cfg.pubsub_topic = fallbackTopic :=
  (c6_pubsub_validation ("### Number of nodes\n2".data) (JVal.jnum 1)).1 (Or.inl rfl)

/-! ## Claim C9: corrupt payloads yield the empty matrix -/

/-- C9: whenever the encoded payload fails to decode (invalid base64,
non-ASCII-decodable bytes, invalid JSON, or a missing `body`/`number`
field), `parse_and_generate_matrix` returns the empty matrix instead of
raising, so the pipeline runs zero jobs. -/
theorem c9_corrupt_payload_empty (s : Str) (h : decodeIssue s = none) :
    parse_and_generate_matrix s = Except.ok [] := by
  unfold parse_and_generate_matrix
  rw [h]

/-- C9 witness: a non-base64 input and a valid-base64 payload lacking
the `body` field both yield the empty matrix. -/
theorem c9_witness :
    decodeIssue ("not base64!!!".data) = none ∧
    parse_and_generate_matrix ("not base64!!!".data) = Except.ok [] ∧
    decodeIssue ("eyJhIjoxfQ==".data) = none ∧
    parse_and_generate_matrix ("eyJhIjoxfQ==".data) = Except.ok [] :=
  ⟨rfl, c9_corrupt_payload_empty _ rfl, rfl, c9_corrupt_payload_empty _ rfl⟩

/-- C8 witness: `"YES"` lowercase-folds to `"yes"`, so the resolver with
default `false` yields `true`. -/
theorem c8_witness : safe_bool ("YES".data) false = true := by
  rw [c8_bool_resolver_amended.1 ("YES".data)]
  decide
